import Mathlib

/-!
Verification of the prom-top query composition and aggregation engine.

This file gives a shallow embedding of the Go package `top` (the file
holding `top`, `Top`, `selectQueryTemplates`, the query templates and the
fingerprint table) and proves the specified properties of template
selection, query composition, metric collection and aggregation.

Modelling conventions:
* Go strings are Lean `String`s; the FNV hash runs over their UTF-8 bytes.
* `float64` sample values are only ever copied (never computed with), so
  they are modelled by `Int`.
* `time.Time` instants are opaque; they are modelled by `Nat`.
* The Prometheus client `v1.API` is modelled by a function from
  (query string, evaluation time) to a reply carrying a value, warnings
  and an optional error, mirroring `Query(ctx, q, ts) (Value, Warnings, error)`.
* `context.Context` carries no data relevant to the verified properties
  and is omitted.
-/

/-! ## String utilities -/

/-- UTF-8 encoding of one character, as the list of its byte values.
Mirrors how Go strings expose their bytes to `hash.Write`. -/
def utf8Bytes (c : Char) : List Nat :=
  let n := c.toNat
  if n < 0x80 then [n]
  else if n < 0x800 then
    [0xC0 ||| (n >>> 6), 0x80 ||| (n &&& 0x3F)]
  else if n < 0x10000 then
    [0xE0 ||| (n >>> 12), 0x80 ||| ((n >>> 6) &&& 0x3F), 0x80 ||| (n &&& 0x3F)]
  else
    [0xF0 ||| (n >>> 18), 0x80 ||| ((n >>> 12) &&& 0x3F),
     0x80 ||| ((n >>> 6) &&& 0x3F), 0x80 ||| (n &&& 0x3F)]

/-- The UTF-8 bytes of a string. -/
def strBytes (s : String) : List Nat :=
  (s.data.map utf8Bytes).flatten

/-- Count of the start positions at which `pat` occurs in `s`
(occurrences may overlap). -/
def countSub (pat : List Char) : List Char → Nat
  | [] => 0
  | c :: t => (if pat.isPrefixOf (c :: t) then 1 else 0) + countSub pat t

/-- Whether `pat` occurs somewhere in `s`; `containsSeg s pat` mirrors
Go `strings.Contains(s, pat)` on character lists. -/
def containsSeg : List Char → List Char → Bool
  | [], pat => pat.isPrefixOf []
  | c :: t, pat => pat.isPrefixOf (c :: t) || containsSeg t pat

/-- Go `strings.Contains` on strings. -/
def strContains (s pat : String) : Bool :=
  containsSeg s.data pat.data

/-! ## FNV-1a 32-bit hash (Go `hash/fnv`, `New32a`) -/

def fnvOffsetBasis32 : Nat := 2166136261

def fnvPrime32 : Nat := 16777619

/-- One step of FNV-1a: xor in the byte, multiply by the prime, reduce
modulo 2^32 (Go's uint32 arithmetic). -/
def fnv32aStep (h b : Nat) : Nat :=
  ((h ^^^ b) * fnvPrime32) % 2 ^ 32

/-- FNV-1a 32-bit hash of a byte list, as computed by
`fnv.New32a(); Write(bytes); Sum32()`. -/
def fnv32a (bytes : List Nat) : Nat :=
  bytes.foldl fnv32aStep fnvOffsetBasis32

/-- The aggregation fingerprint: FNV-1a/32 of
`fmt.Sprintf("%s-%s-%s", ns, pod, tm)`.  The Go code writes this string
to a shared hasher and calls `Sum32()` followed by `Reset()`, which is
equivalent to one fresh stateless hash per sample. -/
def fingerprint (ns pod tm : String) : Nat :=
  fnv32a (strBytes (ns ++ "-" ++ pod ++ "-" ++ tm))

/-! ## Data model -/

/-- A Prometheus label set (`model.Metric`): an association list from
label names to values.  A missing key reads as the empty string, like a
Go map lookup's zero value. -/
abbrev Labels := List (String × String)

/-- `sample.Metric["name"]` with Go's zero-value default. -/
def getLabel (ls : Labels) (k : String) : String :=
  (ls.lookup k).getD ""

/-- One `model.Sample` of an instant vector: a label set and a scalar
value.  (The per-sample timestamp is unused by the aggregator.) -/
structure Sample where
  Metric : Labels
  Value : Int
deriving DecidableEq

/-- `model.Value` shapes that `Query` may return.  Only `vector` is the
expected instant-vector shape; the others model scalars, matrices and
strings. -/
inductive QueryValue where
  | vector (v : List Sample)
  | scalar (x : Int)
  | matrix
  | strVal (s : String)
deriving DecidableEq

/-- The triple returned by `v1.API.Query`: a value, warnings, and an
optional error. -/
structure QueryReply where
  value : QueryValue
  warnings : List String
  error : Option String
deriving DecidableEq

/-- The Prometheus client: `Query(ctx, q, ts)` modelled as a pure
function of the query string and the evaluation instant. -/
abbrev Client := String → Nat → QueryReply

/-- The output record (`dbhandler.Row`, aliased `PodMetric`).  The
`dbhandler` package is outside this repository; the field set is the one
`top` reads and writes: `Metric`, `Range`, `Pod`, `Namespace`,
`LabelApp`, `Q95Value`, `MaxValue`, `MinValue`, `AvgValue`, `InstValue`,
`QueryTime`. -/
@[ext]
structure PodMetric where
  Metric : String
  Range : String
  Pod : String
  Namespace : String
  LabelApp : String
  Q95Value : Int
  MaxValue : Int
  MinValue : Int
  AvgValue : Int
  InstValue : Int
  QueryTime : String
deriving DecidableEq

/-- Go's `new(PodMetric)`: zero value of every field. -/
def PodMetric.zero : PodMetric :=
  ⟨"", "", "", "", "", 0, 0, 0, 0, 0, ""⟩

/-- Modelled from the spec: `dbhandler.TimestampFormat` rendering of the
evaluation instant (`now.Format(dbhandler.TimestampFormat)`), a fixed
textual rendering of the instant; `dbhandler` is outside this
repository.  Any fixed injective rendering serves the verified
properties. -/
def formatTimestamp (t : Nat) : String :=
  toString t

/-! ## Target metrics and query templates -/

def cpuMetric : String := "container_cpu_usage_seconds_total"

def memoryMetric : String := "container_memory_usage_bytes"

/-- `targetMetrics`: the fixed list of metrics queried per run. -/
def targetMetrics : List String := [cpuMetric, memoryMetric]

def quantileOverTimeTemplate : String :=
  "quantile_over_time(.95, \x7b\x7b.Metric\x7d\x7d[\x7b\x7b.Range\x7d\x7d])"

def avgOverTimeTemplate : String :=
  "avg_over_time(\x7b\x7b.Metric\x7d\x7d[\x7b\x7b.Range\x7d\x7d])"

def maxOverTimeTemplate : String :=
  "max_over_time(\x7b\x7b.Metric\x7d\x7d[\x7b\x7b.Range\x7d\x7d])"

def minOverTimeTemplate : String :=
  "min_over_time(\x7b\x7b.Metric\x7d\x7d[\x7b\x7b.Range\x7d\x7d])"

def instantTemplate : String := "\x7b\x7b.Metric\x7d\x7d"

/-- The default template set chosen for any unrecognized query type:
all windowed aggregations, instant excluded. -/
def defaultQueryTemplates : List String :=
  [quantileOverTimeTemplate, avgOverTimeTemplate,
   maxOverTimeTemplate, minOverTimeTemplate]

/-- `selectQueryTemplates`: the template registry.  The Go switch on
`Config.QueryType` ("q" / "a" / "i", anything else defaulting), with the
always-nil error slot modelled as `Except`. -/
def selectQueryTemplates (q : String) : Except String (List String) :=
  if q = "q" then Except.ok [quantileOverTimeTemplate]
  else if q = "a" then Except.ok [avgOverTimeTemplate]
  else if q = "i" then Except.ok [instantTemplate]
  else Except.ok defaultQueryTemplates

/-- `appLabelQuery`: the label-join wrapper template (the aggregator
file's version, which filters the metadata only on a non-empty pod). -/
def appLabelQuery : String :=
  "sum by (pod, label_app) (kube_pod_labels\x7bpod!=\"\"\x7d) * on (pod) group_right(label_app) sum by (pod, namespace, node) (\x7b\x7b.Query\x7d\x7d)"

/-- Everything of `appLabelQuery` before the `.Query` substitution
point. -/
def appLabelPre : String :=
  "sum by (pod, label_app) (kube_pod_labels\x7bpod!=\"\"\x7d) * on (pod) group_right(label_app) sum by (pod, namespace, node) ("

/-- `text/template` execution of `appLabelQuery` on `{Query: q}`: the
template is literal text around a single field reference, so rendering
is concatenation. -/
def renderAppLabel (q : String) : String :=
  appLabelPre ++ q ++ ")"

/-- `text/template` execution of a base query template on
`{Metric: m, Range: r}`.  Each of the five fixed templates is literal
text around field references, so rendering is concatenation; any other
template string renders by textual field substitution. -/
def render (qt m r : String) : String :=
  if qt = quantileOverTimeTemplate then
    "quantile_over_time(.95, " ++ m ++ "[" ++ r ++ "])"
  else if qt = avgOverTimeTemplate then
    "avg_over_time(" ++ m ++ "[" ++ r ++ "])"
  else if qt = maxOverTimeTemplate then
    "max_over_time(" ++ m ++ "[" ++ r ++ "])"
  else if qt = minOverTimeTemplate then
    "min_over_time(" ++ m ++ "[" ++ r ++ "])"
  else if qt = instantTemplate then m
  else (qt.replace ("\x7b\x7b.Metric\x7d\x7d") m).replace ("\x7b\x7b.Range\x7d\x7d") r

/-- The (metric, template) pairs in execution order: outer loop over
`targetMetrics`, inner loop over the selected templates. -/
def metricPairs (ts : List String) : List (String × String) :=
  (targetMetrics.map (fun tm => ts.map (fun qt => (tm, qt)))).flatten

/-- All composed query strings of a run, in execution order. -/
def composedQueries (queryType range : String) : List String :=
  match selectQueryTemplates queryType with
  | Except.ok ts => (metricPairs ts).map (fun p => renderAppLabel (render p.2 p.1 range))
  | Except.error _ => []

/-! ## The fingerprint table -/

/-- `podMetricHashTable`: a `map[uint32]*PodMetric`, modelled as an
association list with unique keys (new keys appended). -/
abbrev Table := List (Nat × PodMetric)

/-- Point update of the table: replace the binding in place if the key
exists, append it otherwise. -/
def upsert : Table → Nat → PodMetric → Table
  | [], id, v => [(id, v)]
  | (k, w) :: t, id, v =>
    if k = id then (k, v) :: t else (k, w) :: upsert t id v

/-- The keys of the table. -/
def tableKeys (t : Table) : List Nat :=
  t.map Prod.fst

/-! ## The aggregation fold -/

/-- One collated unit of the aggregation stream: the template that
produced the query, the target metric, and one returned sample. -/
structure Entry where
  qt : String
  tm : String
  sample : Sample
deriving DecidableEq

/-- The fingerprint of an entry, from the sample's `namespace` and `pod`
labels (missing labels degrade to "") and the target metric. -/
def entryFp (e : Entry) : Nat :=
  fingerprint (getLabel e.sample.Metric ("namespace"))
    (getLabel e.sample.Metric ("pod")) e.tm

/-- The `switch` on the template string deciding which scalar field a
sample populates.  Matches the Go dispatch, including the non-empty
fallback branch that writes `MinValue`. -/
def dispatch (qt : String) (v : Int) (r : PodMetric) : PodMetric :=
  if strContains qt ("quantile_over_time") then { r with Q95Value := v }
  else if strContains qt ("avg_over_time") then { r with AvgValue := v }
  else if strContains qt ("max_over_time") then { r with MaxValue := v }
  else if strContains qt ("min_over_time") then { r with MinValue := v }
  else if 0 < qt.length then { r with MinValue := v }
  else r

/-- The per-sample record transform: unconditionally overwrite the
descriptive fields, then dispatch the scalar value on the template. -/
def applyEntry (range nowFmt : String) (r : PodMetric) (e : Entry) : PodMetric :=
  dispatch e.qt e.sample.Value
    { r with
      Namespace := getLabel e.sample.Metric ("namespace")
      Pod := getLabel e.sample.Metric ("pod")
      Metric := e.tm
      LabelApp := getLabel e.sample.Metric ("label_app")
      Range := range
      QueryTime := nowFmt }

/-- One iteration of the sample loop: look up (or zero-create) the
record for the sample's fingerprint and store the transformed record. -/
def foldEntry (range nowFmt : String) (t : Table) (e : Entry) : Table :=
  upsert t (entryFp e) (applyEntry range nowFmt ((t.lookup (entryFp e)).getD PodMetric.zero) e)

/-- The aggregator fold over a stream of collated samples. -/
def aggregate (range nowFmt : String) (t : Table) (es : List Entry) : Table :=
  es.foldl (foldEntry range nowFmt) t

/-! ## The run -/

/-- `Config`: query type selector, range, and the Prometheus client.
(`Context` is omitted; see the module comment.) -/
structure Config where
  QueryType : String
  Range : String
  PrometheusClient : Client

/-- The query loop of `top`, instrumented with the trace of
`Query` invocations (query string and evaluation instant, appended
before the reply is inspected).  A failed query or a non-vector value
aborts the whole run with an error. -/
def runQueriesT (client : Client) (range : String) (now : Nat) :
    List (String × String) → Table → List (String × Nat) →
    List (String × Nat) × Except String Table
  | [], t, tr => (tr, Except.ok t)
  | (tm, qt) :: rest, t, tr =>
    let q := renderAppLabel (render qt tm range)
    let rep := client q now
    let tr2 := tr ++ [(q, now)]
    match rep.error with
    | some e => (tr2, Except.error ("query \"" ++ q ++ "\" failed: " ++ e))
    | none =>
      match rep.value with
      | QueryValue.vector v =>
        runQueriesT client range now rest
          (aggregate range (formatTimestamp now) t (v.map (fun s => Entry.mk qt tm s))) tr2
      | _ => (tr2, Except.error ("expected vector"))

/-- `top` with its query trace: select the templates, execute the
composed queries at the single captured instant `now`, fold the vectors
into the fingerprint table, and emit its records. -/
def topT (cfg : Config) (now : Nat) :
    List (String × Nat) × Except String (List PodMetric) :=
  match selectQueryTemplates cfg.QueryType with
  | Except.error e => ([], Except.error ("failed to parse query type: " ++ e))
  | Except.ok ts =>
    let res := runQueriesT cfg.PrometheusClient cfg.Range now (metricPairs ts) [] []
    (res.1, res.2.map (fun t => t.map Prod.snd))

/-- `top`: the run's result. -/
def top (cfg : Config) (now : Nat) : Except String (List PodMetric) :=
  (topT cfg now).2

/-- The sequence of `Query` invocations a run performs. -/
def topQueryTrace (cfg : Config) (now : Nat) : List (String × Nat) :=
  (topT cfg now).1

def defaultRange : String := "10m"

/-- `Top`: the exported entry point; defaults an empty range to `10m`.
(The nil-context default is outside the model; the Go name `Top` is
taken in Lean, hence `TopRun`.) -/
def TopRun (cfg : Config) (now : Nat) : Except String (List PodMetric) :=
  top { cfg with Range := if cfg.Range.length = 0 then defaultRange else cfg.Range } now

/-! ## Auxiliary definitions for stating the properties -/

/-- The unit suffixes of the Prometheus lexical duration format
(`##unit`), as documented on `Config.Range`. -/
def rangeUnits : List (List Char) :=
  [['m', 's'], ['s'], ['m'], ['h'], ['d'], ['w'], ['y']]

/-- A well-formed `Config.Range` string: one or more digits followed by
one of the documented unit suffixes. -/
def validRange (r : String) : Bool :=
  !(r.data.takeWhile Char.isDigit).isEmpty &&
    rangeUnits.contains (r.data.dropWhile Char.isDigit)

/-- A reply the collector accepts: no error and an instant-vector
value. -/
def goodReply (rep : QueryReply) : Bool :=
  rep.error = none &&
    match rep.value with
    | QueryValue.vector _ => true
    | _ => false

/-- A client whose every reply is a one-sample vector (namespace `ns1`,
pod `p1`, deployment label `app1`, value 7) with no warnings and no
error. -/
def clientOneSample : Client := fun _ _ =>
  ⟨QueryValue.vector [⟨[("namespace", "ns1"), ("pod", "p1"), ("label_app", "app1")], 7⟩],
   [], none⟩

/-- An instant-selector configuration over `clientOneSample`. -/
def cfgInstant : Config := ⟨"i", "10m", clientOneSample⟩

/-- A client whose every reply is a scalar (not a vector). -/
def clientScalar : Client := fun _ _ => ⟨QueryValue.scalar 3, [], none⟩

/-- `clientOneSample` with a warning attached to every reply. -/
def clientOneSampleWarn : Client := fun _ _ =>
  ⟨QueryValue.vector [⟨[("namespace", "ns1"), ("pod", "p1"), ("label_app", "app1")], 7⟩],
   ["query was slow"], none⟩

/-- A concrete stream entry: a cpu-metric sample for pod `p1`. -/
def entryCpu : Entry :=
  ⟨quantileOverTimeTemplate, cpuMetric,
   ⟨[("namespace", "n1"), ("pod", "p1"), ("label_app", "a1")], 3⟩⟩

/-- A concrete stream entry: a memory-metric sample for the same pod. -/
def entryMem : Entry :=
  ⟨quantileOverTimeTemplate, memoryMetric,
   ⟨[("namespace", "n1"), ("pod", "p1"), ("label_app", "a1")], 4⟩⟩

/-- A concrete stream entry: an average-kind sample for the same
identity as `entryCpu`. -/
def entryCpuAvg : Entry :=
  ⟨avgOverTimeTemplate, cpuMetric,
   ⟨[("namespace", "n1"), ("pod", "p1"), ("label_app", "a1")], 9⟩⟩

/-! ## Table lemmas -/

theorem lookup_upsert_self (t : Table) (id : Nat) (v : PodMetric) :
    (upsert t id v).lookup id = some v := by
  induction t with
  | nil => simp [upsert, List.lookup]
  | cons kv t ih =>
    obtain ⟨k, w⟩ := kv
    by_cases h : k = id
    · subst h; simp [upsert, List.lookup]
    · simp [upsert, h, List.lookup, ih, beq_eq_false_iff_ne.mpr (Ne.symm h)]

theorem lookup_upsert_ne (t : Table) (id id' : Nat) (v : PodMetric) (h : id' ≠ id) :
    (upsert t id v).lookup id' = t.lookup id' := by
  induction t with
  | nil => simp [upsert, List.lookup, beq_eq_false_iff_ne.mpr h]
  | cons kv t ih =>
    obtain ⟨k, w⟩ := kv
    by_cases hk : k = id
    · subst hk; simp [upsert, List.lookup, beq_eq_false_iff_ne.mpr h]
    · by_cases hk' : k = id'
      · subst hk'; simp [upsert, hk, List.lookup]
      · simp [upsert, hk, List.lookup, beq_eq_false_iff_ne.mpr (Ne.symm hk'), ih]

theorem tableKeys_upsert (t : Table) (id : Nat) (v : PodMetric) :
    tableKeys (upsert t id v) =
      if id ∈ tableKeys t then tableKeys t else tableKeys t ++ [id] := by
  induction t with
  | nil => simp [upsert, tableKeys]
  | cons kv t ih =>
    obtain ⟨k, w⟩ := kv
    by_cases h : k = id
    · subst h; simp [upsert, tableKeys]
    · simp [upsert, h, tableKeys, Ne.symm h] at ih ⊢
      rw [ih]
      by_cases hmem : id ∈ t.map Prod.fst <;> simp [hmem, Ne.symm h]

theorem nodup_tableKeys_upsert (t : Table) (id : Nat) (v : PodMetric)
    (h : (tableKeys t).Nodup) : (tableKeys (upsert t id v)).Nodup := by
  rw [tableKeys_upsert]
  by_cases hmem : id ∈ tableKeys t
  · simpa [hmem] using h
  · simp [hmem, List.nodup_append, h, List.disjoint_singleton, hmem]

theorem lookup_eq_none_of_not_mem (t : Table) (id : Nat) (h : id ∉ tableKeys t) :
    t.lookup id = none := by
  induction t with
  | nil => simp [List.lookup]
  | cons kv t ih =>
    obtain ⟨k, w⟩ := kv
    have hck : tableKeys ((k, w) :: t) = k :: tableKeys t := rfl
    rw [hck, List.mem_cons] at h
    push_neg at h
    simp [List.lookup, beq_eq_false_iff_ne.mpr h.1, ih h.2]

theorem mem_of_lookup_some (t : Table) (id : Nat) (v : PodMetric)
    (h : t.lookup id = some v) : id ∈ tableKeys t := by
  by_contra hmem
  rw [lookup_eq_none_of_not_mem t id hmem] at h
  exact Option.noConfusion h

/-! ## The master aggregation lemma -/

theorem lookup_aggregate (range nowFmt : String) (es : List Entry) (t : Table) (id : Nat) :
    (aggregate range nowFmt t es).lookup id =
      if (es.filter (fun e => entryFp e == id)).isEmpty then t.lookup id
      else some ((es.filter (fun e => entryFp e == id)).foldl
        (applyEntry range nowFmt) ((t.lookup id).getD PodMetric.zero)) := by
  induction es generalizing t with
  | nil => simp [aggregate]
  | cons e es ih =>
    by_cases hfp : entryFp e = id
    · have hfil : (e :: es).filter (fun e => entryFp e == id) =
          e :: es.filter (fun e => entryFp e == id) := by
        exact List.filter_cons_of_pos (by simp [hfp])
      have hstep : aggregate range nowFmt t (e :: es) =
          aggregate range nowFmt (foldEntry range nowFmt t e) es := rfl
      have hlk : (foldEntry range nowFmt t e).lookup id =
          some (applyEntry range nowFmt ((t.lookup id).getD PodMetric.zero) e) := by
        simp [foldEntry, hfp, lookup_upsert_self]
      rw [hstep, ih, hfil, hlk]
      by_cases hrel : (es.filter (fun e => entryFp e == id)).isEmpty
      · rw [List.isEmpty_iff] at hrel
        simp [hrel]
      · simp [hrel]
    · have hfil : (e :: es).filter (fun e => entryFp e == id) =
          es.filter (fun e => entryFp e == id) := by
        exact List.filter_cons_of_neg (by simp [hfp])
      have hstep : aggregate range nowFmt t (e :: es) =
          aggregate range nowFmt (foldEntry range nowFmt t e) es := rfl
      have hlk : (foldEntry range nowFmt t e).lookup id = t.lookup id := by
        simp [foldEntry]
        exact lookup_upsert_ne _ _ _ _ (fun hh => hfp hh.symm)
      rw [hstep, ih, hfil, hlk]

/-! ## Substring lemmas -/

theorem containsSeg_nil_pat (b : List Char) : containsSeg b [] = true := by
  induction b with
  | nil => simp [containsSeg]
  | cons c cs ih => simp [containsSeg]

theorem containsSeg_append_left (a b pat : List Char)
    (h : containsSeg a pat = true) : containsSeg (a ++ b) pat = true := by
  induction a with
  | nil =>
    simp [containsSeg, List.prefix_nil] at h
    subst h
    exact containsSeg_nil_pat b
  | cons c cs ih =>
    simp [containsSeg] at h ⊢
    rcases h with h | h
    · exact Or.inl (h.trans (List.prefix_append (c :: cs) b))
    · exact Or.inr (ih h)

theorem containsSeg_append_right (a b pat : List Char)
    (h : containsSeg b pat = true) : containsSeg (a ++ b) pat = true := by
  induction a with
  | nil => exact h
  | cons c cs ih =>
    simp only [List.cons_append, containsSeg, Bool.or_eq_true]
    exact Or.inr ih

theorem containsSeg_of_middle (a pat b : List Char) :
    containsSeg (a ++ (pat ++ b)) pat = true := by
  apply containsSeg_append_right
  cases pat with
  | nil => exact containsSeg_nil_pat _
  | cons p ps =>
    simp [containsSeg, List.prefix_append]

/-! ## Registry and table helper lemmas -/

theorem select_ok (s : String) :
    ∃ ts, selectQueryTemplates s = Except.ok ts ∧ ts ≠ [] := by
  unfold selectQueryTemplates
  split_ifs <;> exact ⟨_, rfl, by decide⟩

theorem pair_mem_of_lookup_some (t : Table) (id : Nat) (v : PodMetric)
    (h : t.lookup id = some v) : (id, v) ∈ t := by
  induction t with
  | nil => simp [List.lookup] at h
  | cons kv t ih =>
    obtain ⟨k, w⟩ := kv
    by_cases hk : id = k
    · subst hk
      simp [List.lookup] at h
      simp [h]
    · simp [List.lookup, beq_eq_false_iff_ne.mpr hk] at h
      simp [ih h]

theorem mem_upsert (t : Table) (id : Nat) (v : PodMetric) (kv : Nat × PodMetric)
    (h : kv ∈ upsert t id v) : kv ∈ t ∨ kv = (id, v) := by
  induction t with
  | nil => simp [upsert] at h; simp [h]
  | cons kw t ih =>
    obtain ⟨k, w⟩ := kw
    by_cases hk : k = id
    · subst hk
      simp [upsert] at h
      rcases h with h | h
      · exact Or.inr (by simp [h])
      · exact Or.inl (by simp [h])
    · simp [upsert, hk] at h
      rcases h with h | h
      · exact Or.inl (by simp [h])
      · rcases ih h with h' | h'
        · exact Or.inl (by simp [h'])
        · exact Or.inr h'

/-! ## C4: the template registry -/

/-- C4: for every query-type selector the registry returns the
documented fixed, non-empty template set and never errors: "q" yields
the quantile-95 template, "a" the average template, "i" the
instantaneous template, and every other selector the default four-kind
set, from which the instantaneous template is excluded. -/
theorem c4_registry_selector_sets :
    selectQueryTemplates "q" = Except.ok [quantileOverTimeTemplate] ∧
    selectQueryTemplates "a" = Except.ok [avgOverTimeTemplate] ∧
    selectQueryTemplates "i" = Except.ok [instantTemplate] ∧
    (∀ s : String, s ≠ "q" → s ≠ "a" → s ≠ "i" →
      selectQueryTemplates s = Except.ok defaultQueryTemplates) ∧
    instantTemplate ∉ defaultQueryTemplates ∧
    (∀ s : String, ∃ ts, selectQueryTemplates s = Except.ok ts ∧ ts ≠ []) := by
  refine ⟨rfl, rfl, rfl, ?_, by decide, select_ok⟩
  intro s h1 h2 h3
  simp [selectQueryTemplates, h1, h2, h3]

/-- C4 witness: the unrecognized selector "instant" falls through to the
default four-kind set, which is returned without an error and is
non-empty. -/
theorem c4_registry_witness :
    selectQueryTemplates "instant" = Except.ok defaultQueryTemplates ∧
    (∃ ts, selectQueryTemplates "instant" = Except.ok ts ∧ ts ≠ []) :=
  ⟨c4_registry_selector_sets.2.2.2.1 "instant" (by decide) (by decide) (by decide),
   c4_registry_selector_sets.2.2.2.2.2 "instant"⟩

/-! ## C1: where instantaneous samples land -/

/-- C1: evaluation of the code at the failing input.  In an
instant-selector run over a client returning one sample of value 7 per
query, every resulting record carries the value in its minimum field
(`MinValue = 7`) while the instantaneous field stays at its zero value
(`InstValue = 0`): the string-matching dispatch has no
`quantile_over_time`/`avg_over_time`/`max_over_time`/`min_over_time`
match for the instant template and its non-empty fallback branch writes
`MinValue`, contradicting the claim that instantaneous samples populate
the instantaneous field. -/
theorem c1_instant_run_sets_min_field_not_inst :
    top cfgInstant 0 = Except.ok
      [⟨cpuMetric, "10m", "p1", "ns1", "app1", 0, 0, 7, 0, 0, formatTimestamp 0⟩,
       ⟨memoryMetric, "10m", "p1", "ns1", "app1", 0, 0, 7, 0, 0, formatTimestamp 0⟩] := by
  rfl

/-! ## C3: distinct identities and distinct records -/

/-- C3 counterexample: two samples folded in one run that differ in
namespace and in pod name nevertheless produce a single record, because
the fingerprint is the FNV-1a hash of `ns ++ "-" ++ pod ++ "-" ++ metric`
and the joined strings of `("a-b", "c")` and `("a", "b-c")` coincide;
the claim that such samples always yield two distinct records is
false. -/
theorem c3_counterexample :
    (getLabel [("namespace", "a-b"), ("pod", "c")] ("namespace") ≠
      getLabel [("namespace", "a"), ("pod", "b-c")] ("namespace")) ∧
    (getLabel [("namespace", "a-b"), ("pod", "c")] ("pod") ≠
      getLabel [("namespace", "a"), ("pod", "b-c")] ("pod")) ∧
    entryFp ⟨quantileOverTimeTemplate, cpuMetric, ⟨[("namespace", "a-b"), ("pod", "c")], 5⟩⟩ =
      entryFp ⟨quantileOverTimeTemplate, cpuMetric, ⟨[("namespace", "a"), ("pod", "b-c")], 6⟩⟩ ∧
    (aggregate ("10m") ("t0") []
      [⟨quantileOverTimeTemplate, cpuMetric, ⟨[("namespace", "a-b"), ("pod", "c")], 5⟩⟩,
       ⟨quantileOverTimeTemplate, cpuMetric, ⟨[("namespace", "a"), ("pod", "b-c")], 6⟩⟩]).length
      = 1 := by
  decide

/-- C3 (amended): two samples folded in one run whose fingerprints
(FNV-1a/32 of the dash-joined namespace, pod and metric) differ produce
two distinct records in the final table. -/
theorem c3_distinct_fingerprints_give_distinct_records
    (range nowFmt : String) (es : List Entry) (e1 e2 : Entry)
    (h1 : e1 ∈ es) (h2 : e2 ∈ es) (hfp : entryFp e1 ≠ entryFp e2) :
    ∃ r1 r2, (entryFp e1, r1) ∈ aggregate range nowFmt [] es ∧
      (entryFp e2, r2) ∈ aggregate range nowFmt [] es ∧
      (entryFp e1, r1) ≠ (entryFp e2, r2) := by
  have key : ∀ e ∈ es, ∃ r, (aggregate range nowFmt [] es).lookup (entryFp e) = some r := by
    intro e he
    have hmem : e ∈ es.filter (fun x => entryFp x == entryFp e) := by
      rw [List.mem_filter]
      exact ⟨he, by simp⟩
    have hne : ¬ (es.filter (fun x => entryFp x == entryFp e)).isEmpty = true := by
      rw [List.isEmpty_iff]
      intro hnil
      rw [hnil] at hmem
      simp at hmem
    refine ⟨(es.filter (fun x => entryFp x == entryFp e)).foldl (applyEntry range nowFmt)
      ((List.lookup (entryFp e) ([] : Table)).getD PodMetric.zero), ?_⟩
    rw [lookup_aggregate, if_neg hne]
  obtain ⟨r1, hr1⟩ := key e1 h1
  obtain ⟨r2, hr2⟩ := key e2 h2
  refine ⟨r1, r2, pair_mem_of_lookup_some _ _ _ hr1, pair_mem_of_lookup_some _ _ _ hr2, ?_⟩
  intro hh
  exact hfp (congrArg Prod.fst hh)

/-- C3 witness: a cpu-metric sample and a memory-metric sample of the
same pod have different fingerprints and the fold yields two distinct
records. -/
theorem c3_amended_witness :
    ∃ r1 r2, (entryFp entryCpu, r1) ∈ aggregate ("10m") ("t0") [] [entryCpu, entryMem] ∧
      (entryFp entryMem, r2) ∈ aggregate ("10m") ("t0") [] [entryCpu, entryMem] ∧
      (entryFp entryCpu, r1) ≠ (entryFp entryMem, r2) :=
  c3_distinct_fingerprints_give_distinct_records ("10m") ("t0") [entryCpu, entryMem]
    entryCpu entryMem (by decide) (by decide) (by decide)

/-! ## C8: the label-join wrapper -/

theorem strContains_renderAppLabel (q pat : String)
    (hp : containsSeg appLabelPre.data pat.data = true) :
    strContains (renderAppLabel q) pat = true := by
  unfold strContains renderAppLabel
  rw [String.data_append, String.data_append]
  exact containsSeg_append_left _ _ _ (containsSeg_append_left _ _ _ hp)

set_option maxRecDepth 8000 in
/-- C8 counterexample: a composed query of the run contains no
`label_app!=""` matcher at all — the wrapper's metadata selector filters
only on `pod!=""` — so the claim that the wrapper selects only pods with
a non-empty deployment label is false. -/
theorem c8_counterexample :
    renderAppLabel (render quantileOverTimeTemplate cpuMetric defaultRange) ∈
      composedQueries "" defaultRange ∧
    strContains (renderAppLabel (render quantileOverTimeTemplate cpuMetric defaultRange))
      ("label_app!=\"\"") = false := by
  decide

set_option maxRecDepth 8000 in
/-- C8 (amended): every composed query string of every run is wrapped in
the label-join transform whose metadata selector filters only on a
non-empty pod identity (`kube_pod_labels{pod!=""}`), joins the metadata
by pod identity carrying the deployment label
(`* on (pod) group_right(label_app)`), and re-groups the wrapped query
by pod, namespace and node (`sum by (pod, namespace, node)`). -/
theorem c8_wrapper_structure (queryType range cq : String)
    (h : cq ∈ composedQueries queryType range) :
    strContains cq ("sum by (pod, label_app) (kube_pod_labels\x7bpod!=\"\"\x7d)") = true ∧
    strContains cq ("* on (pod) group_right(label_app)") = true ∧
    strContains cq ("sum by (pod, namespace, node) (") = true := by
  obtain ⟨ts, hts, -⟩ := select_ok queryType
  rw [composedQueries, hts] at h
  obtain ⟨p, hp, rfl⟩ := List.mem_map.mp h
  exact ⟨strContains_renderAppLabel _ _ (by decide),
    strContains_renderAppLabel _ _ (by decide),
    strContains_renderAppLabel _ _ (by decide)⟩

set_option maxRecDepth 8000 in
/-- C8 witness: the composed average-over-time query for the memory
metric in a default run carries all three parts of the wrapper. -/
theorem c8_wrapper_witness :
    strContains (renderAppLabel (render avgOverTimeTemplate memoryMetric defaultRange))
      ("sum by (pod, label_app) (kube_pod_labels\x7bpod!=\"\"\x7d)") = true ∧
    strContains (renderAppLabel (render avgOverTimeTemplate memoryMetric defaultRange))
      ("* on (pod) group_right(label_app)") = true ∧
    strContains (renderAppLabel (render avgOverTimeTemplate memoryMetric defaultRange))
      ("sum by (pod, namespace, node) (") = true :=
  c8_wrapper_structure ("") defaultRange
    (renderAppLabel (render avgOverTimeTemplate memoryMetric defaultRange)) (by decide)

/-! ## C6: all-or-nothing runs -/

theorem runQueriesT_error_of_bad (client : Client) (range : String) (now : Nat)
    (pairs : List (String × String)) (t : Table) (tr : List (String × Nat))
    (h : ∃ p ∈ pairs, goodReply (client (renderAppLabel (render p.2 p.1 range)) now) = false) :
    ∃ e, (runQueriesT client range now pairs t tr).2 = Except.error e := by
  induction pairs generalizing t tr with
  | nil => simp at h
  | cons pq rest ih =>
    obtain ⟨tm, qt⟩ := pq
    rcases hcl : client (renderAppLabel (render qt tm range)) now with ⟨val, w, err⟩
    cases err with
    | some e =>
      exact ⟨"query \"" ++ renderAppLabel (render qt tm range) ++ "\" failed: " ++ e,
        by simp [runQueriesT, hcl]⟩
    | none =>
      cases val with
      | vector v =>
        have hgood : goodReply (client (renderAppLabel (render qt tm range)) now) = true := by
          rw [hcl]; simp [goodReply]
        rcases h with ⟨p', hp', hbad⟩
        rcases List.mem_cons.mp hp' with rfl | hmem
        · rw [hgood] at hbad
          exact absurd hbad (by simp)
        · obtain ⟨e, he⟩ := ih _ _ ⟨p', hmem, hbad⟩
          refine ⟨e, ?_⟩
          simpa [runQueriesT, hcl] using he
      | scalar x => exact ⟨"expected vector", by simp [runQueriesT, hcl]⟩
      | matrix => exact ⟨"expected vector", by simp [runQueriesT, hcl]⟩
      | strVal s => exact ⟨"expected vector", by simp [runQueriesT, hcl]⟩

/-- C6: if the query interface returns an error, or any non-vector
value, for any single composed query of the run, the whole run fails
with an error and returns no records at all. -/
theorem c6_bad_reply_aborts_run (cfg : Config) (now : Nat)
    (h : ∃ q ∈ composedQueries cfg.QueryType cfg.Range,
      goodReply (cfg.PrometheusClient q now) = false) :
    ∃ e, top cfg now = Except.error e := by
  obtain ⟨ts, hts, -⟩ := select_ok cfg.QueryType
  rw [composedQueries, hts] at h
  obtain ⟨q, hq, hbad⟩ := h
  obtain ⟨p, hp, rfl⟩ := List.mem_map.mp hq
  obtain ⟨e, he⟩ := runQueriesT_error_of_bad cfg.PrometheusClient cfg.Range now
    (metricPairs ts) [] [] ⟨p, hp, hbad⟩
  refine ⟨e, ?_⟩
  simp [top, topT, hts, he, Except.map]

set_option maxRecDepth 8000 in
/-- C6 witness: a client that answers every query with a scalar makes
the default run fail with an error. -/
theorem c6_witness : ∃ e, top ⟨"", "10m", clientScalar⟩ 0 = Except.error e :=
  c6_bad_reply_aborts_run ⟨"", "10m", clientScalar⟩ 0
    ⟨renderAppLabel (render quantileOverTimeTemplate cpuMetric ("10m")),
     by decide, by decide⟩

/-! ## C7: one evaluation instant per run -/

theorem dispatch_descriptive (qt : String) (v : Int) (r : PodMetric) :
    (dispatch qt v r).Metric = r.Metric ∧
    (dispatch qt v r).Range = r.Range ∧
    (dispatch qt v r).Pod = r.Pod ∧
    (dispatch qt v r).Namespace = r.Namespace ∧
    (dispatch qt v r).LabelApp = r.LabelApp ∧
    (dispatch qt v r).QueryTime = r.QueryTime := by
  unfold dispatch
  split_ifs <;> exact ⟨rfl, rfl, rfl, rfl, rfl, rfl⟩

theorem applyEntry_QueryTime (range nowFmt : String) (r : PodMetric) (e : Entry) :
    (applyEntry range nowFmt r e).QueryTime = nowFmt := by
  unfold applyEntry
  rw [(dispatch_descriptive _ _ _).2.2.2.2.2]

theorem aggregate_QueryTime (range nowFmt : String) (es : List Entry) :
    ∀ t : Table, (∀ kv ∈ t, (kv : Nat × PodMetric).2.QueryTime = nowFmt) →
    ∀ kv ∈ aggregate range nowFmt t es, (kv : Nat × PodMetric).2.QueryTime = nowFmt := by
  induction es with
  | nil => intro t h kv hkv; exact h kv hkv
  | cons e rest ih =>
    intro t h kv hkv
    refine ih (foldEntry range nowFmt t e) ?_ kv hkv
    intro kv' hkv'
    rcases mem_upsert _ _ _ _ hkv' with hm | hm
    · exact h kv' hm
    · rw [hm]
      exact applyEntry_QueryTime range nowFmt _ e

theorem runQueriesT_trace_times (client : Client) (range : String) (now : Nat)
    (pairs : List (String × String)) :
    ∀ (t : Table) (tr : List (String × Nat)), (∀ p ∈ tr, p.2 = now) →
    ∀ p ∈ (runQueriesT client range now pairs t tr).1, p.2 = now := by
  induction pairs with
  | nil =>
    intro t tr h p hp
    rw [runQueriesT] at hp
    exact h p hp
  | cons pq rest ih =>
    intro t tr h p hp
    obtain ⟨tm, qt⟩ := pq
    have htr2 : ∀ x ∈ tr ++ [(renderAppLabel (render qt tm range), now)],
        (x : String × Nat).2 = now := by
      intro x hx
      rcases List.mem_append.mp hx with hx | hx
      · exact h x hx
      · simp at hx
        rw [hx]
    rcases hcl : client (renderAppLabel (render qt tm range)) now with ⟨val, w, err⟩
    cases err with
    | some e =>
      simp only [runQueriesT, hcl] at hp
      exact htr2 p hp
    | none =>
      cases val with
      | vector v =>
        simp only [runQueriesT, hcl] at hp
        exact ih _ _ htr2 p hp
      | scalar x =>
        simp only [runQueriesT, hcl] at hp
        exact htr2 p hp
      | matrix =>
        simp only [runQueriesT, hcl] at hp
        exact htr2 p hp
      | strVal s =>
        simp only [runQueriesT, hcl] at hp
        exact htr2 p hp

theorem runQueriesT_record_times (client : Client) (range : String) (now : Nat)
    (pairs : List (String × String)) :
    ∀ (t : Table) (tr : List (String × Nat)),
    (∀ kv ∈ t, (kv : Nat × PodMetric).2.QueryTime = formatTimestamp now) →
    ∀ t', (runQueriesT client range now pairs t tr).2 = Except.ok t' →
    ∀ kv ∈ t', (kv : Nat × PodMetric).2.QueryTime = formatTimestamp now := by
  induction pairs with
  | nil =>
    intro t tr h t' ht' kv hkv
    rw [runQueriesT] at ht'
    cases ht'
    exact h kv hkv
  | cons pq rest ih =>
    intro t tr h t' ht' kv hkv
    obtain ⟨tm, qt⟩ := pq
    rcases hcl : client (renderAppLabel (render qt tm range)) now with ⟨val, w, err⟩
    cases err with
    | some e => simp only [runQueriesT, hcl] at ht'; cases ht'
    | none =>
      cases val with
      | vector v =>
        simp only [runQueriesT, hcl] at ht'
        exact ih _ _ (aggregate_QueryTime range (formatTimestamp now) _ t h) t' ht' kv hkv
      | scalar x => simp only [runQueriesT, hcl] at ht'; cases ht'
      | matrix => simp only [runQueriesT, hcl] at ht'; cases ht'
      | strVal s => simp only [runQueriesT, hcl] at ht'; cases ht'

/-- C7: within one run every query is executed with the single captured
evaluation instant `now` (each entry of the query trace carries `now`),
and every record of a successful run has its timestamp field rendered
from that same instant. -/
theorem c7_single_timestamp_per_run (cfg : Config) (now : Nat) :
    (∀ p ∈ topQueryTrace cfg now, (p : String × Nat).2 = now) ∧
    (∀ l, top cfg now = Except.ok l →
      ∀ r ∈ l, (r : PodMetric).QueryTime = formatTimestamp now) := by
  obtain ⟨ts, hts, -⟩ := select_ok cfg.QueryType
  constructor
  · intro p hp
    simp only [topQueryTrace, topT, hts] at hp
    exact runQueriesT_trace_times _ _ _ _ _ _ (by simp) p hp
  · intro l hl r hr
    simp only [top, topT, hts] at hl
    rcases hres : (runQueriesT cfg.PrometheusClient cfg.Range now (metricPairs ts) [] []).2 with e | t'
    · rw [hres] at hl; simp [Except.map] at hl
    · rw [hres] at hl
      simp [Except.map] at hl
      subst hl
      obtain ⟨kv, hkv, rfl⟩ := List.mem_map.mp hr
      exact runQueriesT_record_times _ _ _ _ _ _ (by simp) t' hres kv hkv

/-- C7 witness: in an instant run at instant 5, every traced query
carries timestamp 5 and every emitted record's timestamp field is the
rendering of 5. -/
theorem c7_timestamp_witness :
    (∀ p ∈ topQueryTrace cfgInstant 5, (p : String × Nat).2 = 5) ∧
    (∀ r ∈ ([⟨cpuMetric, "10m", "p1", "ns1", "app1", 0, 0, 7, 0, 0, formatTimestamp 5⟩,
       ⟨memoryMetric, "10m", "p1", "ns1", "app1", 0, 0, 7, 0, 0, formatTimestamp 5⟩] :
       List PodMetric), r.QueryTime = formatTimestamp 5) :=
  ⟨(c7_single_timestamp_per_run cfgInstant 5).1,
   (c7_single_timestamp_per_run cfgInstant 5).2 _ (by rfl)⟩

/-! ## C10: warnings are discarded unread -/

theorem runQueriesT_client_agnostic (c1 c2 : Client) (range : String) (now : Nat)
    (h : ∀ q t, (c1 q t).value = (c2 q t).value ∧ (c1 q t).error = (c2 q t).error) :
    ∀ (pairs : List (String × String)) (t : Table) (tr : List (String × Nat)),
    runQueriesT c1 range now pairs t tr = runQueriesT c2 range now pairs t tr := by
  intro pairs
  induction pairs with
  | nil => intro t tr; rfl
  | cons pq rest ih =>
    intro t tr
    obtain ⟨tm, qt⟩ := pq
    rcases hc1 : c1 (renderAppLabel (render qt tm range)) now with ⟨v1, w1, e1⟩
    rcases hc2 : c2 (renderAppLabel (render qt tm range)) now with ⟨v2, w2, e2⟩
    have hv : v1 = v2 := by
      have hh := (h (renderAppLabel (render qt tm range)) now).1
      rw [hc1, hc2] at hh
      exact hh
    have he : e1 = e2 := by
      have hh := (h (renderAppLabel (render qt tm range)) now).2
      rw [hc1, hc2] at hh
      exact hh
    subst hv
    subst he
    cases e1 with
    | some e => simp [runQueriesT, hc1, hc2]
    | none =>
      cases v1 with
      | vector v =>
        simp only [runQueriesT, hc1, hc2]
        exact ih _ _
      | scalar x => simp [runQueriesT, hc1, hc2]
      | matrix => simp [runQueriesT, hc1, hc2]
      | strVal s => simp [runQueriesT, hc1, hc2]

/-- C10: the run's entire observable outcome (query trace, record table
or error) is unchanged when the client's warnings are replaced
arbitrarily, as long as values and errors agree: the warnings component
is discarded unread. -/
theorem c10_warnings_never_influence_output (qt0 rg0 : String) (cl1 cl2 : Client) (now : Nat)
    (h : ∀ q t, (cl1 q t).value = (cl2 q t).value ∧ (cl1 q t).error = (cl2 q t).error) :
    topT ⟨qt0, rg0, cl1⟩ now = topT ⟨qt0, rg0, cl2⟩ now := by
  obtain ⟨ts, hts, -⟩ := select_ok qt0
  simp only [topT, hts]
  rw [runQueriesT_client_agnostic cl1 cl2 rg0 now h]

/-- C10 witness: attaching a warning to every reply changes neither the
trace nor the records of an instant run. -/
theorem c10_warnings_witness :
    topT ⟨"i", "10m", clientOneSample⟩ 0 = topT ⟨"i", "10m", clientOneSampleWarn⟩ 0 :=
  c10_warnings_never_influence_output ("i") ("10m") clientOneSample clientOneSampleWarn 0
    (fun _ _ => ⟨rfl, rfl⟩)

/-! ## C2: folding two kinds of the same identity -/

theorem applyEntry_descriptive (range nowFmt : String) (r : PodMetric) (e : Entry) :
    (applyEntry range nowFmt r e).Namespace = getLabel e.sample.Metric ("namespace") ∧
    (applyEntry range nowFmt r e).Pod = getLabel e.sample.Metric ("pod") ∧
    (applyEntry range nowFmt r e).Metric = e.tm ∧
    (applyEntry range nowFmt r e).LabelApp = getLabel e.sample.Metric ("label_app") ∧
    (applyEntry range nowFmt r e).Range = range ∧
    (applyEntry range nowFmt r e).QueryTime = nowFmt := by
  unfold applyEntry dispatch
  split_ifs <;> exact ⟨rfl, rfl, rfl, rfl, rfl, rfl⟩

theorem dispatch_quantile (v : Int) (r : PodMetric) :
    dispatch quantileOverTimeTemplate v r = { r with Q95Value := v } := by
  have h1 : strContains quantileOverTimeTemplate ("quantile_over_time") = true := by decide
  simp [dispatch, h1]

theorem dispatch_avg (v : Int) (r : PodMetric) :
    dispatch avgOverTimeTemplate v r = { r with AvgValue := v } := by
  have h1 : strContains avgOverTimeTemplate ("quantile_over_time") = false := by decide
  have h2 : strContains avgOverTimeTemplate ("avg_over_time") = true := by decide
  simp [dispatch, h1, h2]

theorem dispatch_max (v : Int) (r : PodMetric) :
    dispatch maxOverTimeTemplate v r = { r with MaxValue := v } := by
  have h1 : strContains maxOverTimeTemplate ("quantile_over_time") = false := by decide
  have h2 : strContains maxOverTimeTemplate ("avg_over_time") = false := by decide
  have h3 : strContains maxOverTimeTemplate ("max_over_time") = true := by decide
  simp [dispatch, h1, h2, h3]

theorem dispatch_min (v : Int) (r : PodMetric) :
    dispatch minOverTimeTemplate v r = { r with MinValue := v } := by
  have h1 : strContains minOverTimeTemplate ("quantile_over_time") = false := by decide
  have h2 : strContains minOverTimeTemplate ("avg_over_time") = false := by decide
  have h3 : strContains minOverTimeTemplate ("max_over_time") = false := by decide
  have h4 : strContains minOverTimeTemplate ("min_over_time") = true := by decide
  simp [dispatch, h1, h2, h3, h4]

theorem nodup_tableKeys_aggregate (range nowFmt : String) (es : List Entry) :
    ∀ t : Table, (tableKeys t).Nodup → (tableKeys (aggregate range nowFmt t es)).Nodup := by
  induction es with
  | nil => intro t h; exact h
  | cons e rest ih =>
    intro t h
    exact ih (foldEntry range nowFmt t e) (nodup_tableKeys_upsert _ _ _ h)

/-- C2: two samples folded in one run that share namespace, pod and
metric but come from two different TemplateKinds of the run's selected
set land in exactly one record (the table holds a single row for their
common fingerprint): each sample's value sits in the scalar field of its
own kind, and the descriptive fields carry the shared namespace, pod,
metric, deployment label, range and timestamp. -/
theorem c2_two_kinds_one_record
    (range nowFmt tm : String) (es : List Entry) (qt1 qt2 : String)
    (s1 s2 : Sample) (id : Nat)
    (hq1 : qt1 ∈ defaultQueryTemplates) (hq2 : qt2 ∈ defaultQueryTemplates)
    (hne : qt1 ≠ qt2)
    (hfil : es.filter (fun x => entryFp x == id) = [⟨qt1, tm, s1⟩, ⟨qt2, tm, s2⟩])
    (hns : getLabel s1.Metric ("namespace") = getLabel s2.Metric ("namespace"))
    (hpod : getLabel s1.Metric ("pod") = getLabel s2.Metric ("pod"))
    (happ : getLabel s1.Metric ("label_app") = getLabel s2.Metric ("label_app")) :
    ∃ r, (aggregate range nowFmt [] es).lookup id = some r ∧
      (tableKeys (aggregate range nowFmt [] es)).count id = 1 ∧
      r.Namespace = getLabel s1.Metric ("namespace") ∧
      r.Namespace = getLabel s2.Metric ("namespace") ∧
      r.Pod = getLabel s1.Metric ("pod") ∧
      r.Pod = getLabel s2.Metric ("pod") ∧
      r.Metric = tm ∧
      r.LabelApp = getLabel s1.Metric ("label_app") ∧
      r.LabelApp = getLabel s2.Metric ("label_app") ∧
      r.Range = range ∧ r.QueryTime = nowFmt ∧
      ((qt1 = quantileOverTimeTemplate → r.Q95Value = s1.Value) ∧
       (qt1 = avgOverTimeTemplate → r.AvgValue = s1.Value) ∧
       (qt1 = maxOverTimeTemplate → r.MaxValue = s1.Value) ∧
       (qt1 = minOverTimeTemplate → r.MinValue = s1.Value)) ∧
      ((qt2 = quantileOverTimeTemplate → r.Q95Value = s2.Value) ∧
       (qt2 = avgOverTimeTemplate → r.AvgValue = s2.Value) ∧
       (qt2 = maxOverTimeTemplate → r.MaxValue = s2.Value) ∧
       (qt2 = minOverTimeTemplate → r.MinValue = s2.Value)) := by
  have hlk := lookup_aggregate range nowFmt es [] id
  rw [hfil] at hlk
  simp only [List.isEmpty_cons, if_false, Bool.false_eq_true, List.foldl_cons, List.foldl_nil,
    List.lookup_nil, Option.getD_none] at hlk
  set r := applyEntry range nowFmt
      (applyEntry range nowFmt PodMetric.zero ⟨qt1, tm, s1⟩) ⟨qt2, tm, s2⟩ with hr
  have hcount : (tableKeys (aggregate range nowFmt [] es)).count id = 1 := by
    apply List.count_eq_one_of_mem
    · exact nodup_tableKeys_aggregate range nowFmt es [] (by simp [tableKeys])
    · exact mem_of_lookup_some _ _ _ hlk
  refine ⟨r, hlk, hcount, ?_, ?_, ?_, ?_, ?_, ?_, ?_, ?_, ?_, ?_, ?_⟩
  · rw [hns]; exact (applyEntry_descriptive range nowFmt _ _).1
  · exact (applyEntry_descriptive range nowFmt _ _).1
  · rw [hpod]; exact (applyEntry_descriptive range nowFmt _ _).2.1
  · exact (applyEntry_descriptive range nowFmt _ _).2.1
  · exact (applyEntry_descriptive range nowFmt _ _).2.2.1
  · rw [happ]; exact (applyEntry_descriptive range nowFmt _ _).2.2.2.1
  · exact (applyEntry_descriptive range nowFmt _ _).2.2.2.1
  · exact (applyEntry_descriptive range nowFmt _ _).2.2.2.2.1
  · exact (applyEntry_descriptive range nowFmt _ _).2.2.2.2.2
  · simp only [defaultQueryTemplates, List.mem_cons, List.not_mem_nil, or_false] at hq1 hq2
    rcases hq1 with rfl | rfl | rfl | rfl <;>
      rcases hq2 with rfl | rfl | rfl | rfl <;>
        first
        | exact absurd rfl hne
        | (refine ⟨?_, ?_, ?_, ?_⟩ <;> intro hh <;>
            first
            | exact absurd hh (by decide)
            | (rw [hr]
               simp [applyEntry, dispatch_quantile, dispatch_avg, dispatch_max, dispatch_min]))
  · simp only [defaultQueryTemplates, List.mem_cons, List.not_mem_nil, or_false] at hq1 hq2
    rcases hq1 with rfl | rfl | rfl | rfl <;>
      rcases hq2 with rfl | rfl | rfl | rfl <;>
        first
        | exact absurd rfl hne
        | (refine ⟨?_, ?_, ?_, ?_⟩ <;> intro hh <;>
            first
            | exact absurd hh (by decide)
            | (rw [hr]
               simp [applyEntry, dispatch_quantile, dispatch_avg, dispatch_max, dispatch_min]))

/-- C2 witness: a quantile-kind sample and an average-kind sample of the
same (namespace, pod, metric) identity fold into one record holding both
values. -/
theorem c2_two_kinds_witness :
    ∃ r, (aggregate ("10m") ("t0") [] [entryCpu, entryCpuAvg]).lookup
        (entryFp entryCpu) = some r ∧
      (tableKeys (aggregate ("10m") ("t0") [] [entryCpu, entryCpuAvg])).count
        (entryFp entryCpu) = 1 ∧
      r.Namespace = getLabel entryCpu.sample.Metric ("namespace") ∧
      r.Namespace = getLabel entryCpuAvg.sample.Metric ("namespace") ∧
      r.Pod = getLabel entryCpu.sample.Metric ("pod") ∧
      r.Pod = getLabel entryCpuAvg.sample.Metric ("pod") ∧
      r.Metric = cpuMetric ∧
      r.LabelApp = getLabel entryCpu.sample.Metric ("label_app") ∧
      r.LabelApp = getLabel entryCpuAvg.sample.Metric ("label_app") ∧
      r.Range = "10m" ∧ r.QueryTime = "t0" ∧
      ((quantileOverTimeTemplate = quantileOverTimeTemplate →
          r.Q95Value = entryCpu.sample.Value) ∧
       (quantileOverTimeTemplate = avgOverTimeTemplate →
          r.AvgValue = entryCpu.sample.Value) ∧
       (quantileOverTimeTemplate = maxOverTimeTemplate →
          r.MaxValue = entryCpu.sample.Value) ∧
       (quantileOverTimeTemplate = minOverTimeTemplate →
          r.MinValue = entryCpu.sample.Value)) ∧
      ((avgOverTimeTemplate = quantileOverTimeTemplate →
          r.Q95Value = entryCpuAvg.sample.Value) ∧
       (avgOverTimeTemplate = avgOverTimeTemplate →
          r.AvgValue = entryCpuAvg.sample.Value) ∧
       (avgOverTimeTemplate = maxOverTimeTemplate →
          r.MaxValue = entryCpuAvg.sample.Value) ∧
       (avgOverTimeTemplate = minOverTimeTemplate →
          r.MinValue = entryCpuAvg.sample.Value)) :=
  c2_two_kinds_one_record ("10m") ("t0") cpuMetric [entryCpu, entryCpuAvg]
    quantileOverTimeTemplate avgOverTimeTemplate entryCpu.sample entryCpuAvg.sample
    (entryFp entryCpu) (by decide) (by decide) (by decide) (by decide) (by decide)
    (by decide) (by decide)

/-! ## C9: idempotence of the fold -/

theorem foldl_proj_cases {α : Type} (f : PodMetric → α) (range nowFmt : String)
    (H : ∀ (e : Entry) (v w : PodMetric),
      f (applyEntry range nowFmt v e) = f (applyEntry range nowFmt w e) ∨
      (f (applyEntry range nowFmt v e) = f v ∧ f (applyEntry range nowFmt w e) = f w)) :
    ∀ (rel : List Entry) (v w : PodMetric),
      f (rel.foldl (applyEntry range nowFmt) v) = f (rel.foldl (applyEntry range nowFmt) w) ∨
      (f (rel.foldl (applyEntry range nowFmt) v) = f v ∧
       f (rel.foldl (applyEntry range nowFmt) w) = f w) := by
  intro rel
  induction rel with
  | nil => intro v w; exact Or.inr ⟨rfl, rfl⟩
  | cons e rest ih =>
    intro v w
    rcases ih (applyEntry range nowFmt v e) (applyEntry range nowFmt w e) with h | ⟨h1, h2⟩
    · exact Or.inl h
    · rcases H e v w with h | ⟨h3, h4⟩
      · exact Or.inl (by rw [List.foldl_cons, List.foldl_cons, h1, h2, h])
      · exact Or.inr ⟨by rw [List.foldl_cons, h1, h3], by rw [List.foldl_cons, h2, h4]⟩

theorem foldl_applyEntry_absorb (range nowFmt : String) (rel : List Entry) (v : PodMetric) :
    rel.foldl (applyEntry range nowFmt) (rel.foldl (applyEntry range nowFmt) v) =
      rel.foldl (applyEntry range nowFmt) v := by
  have key : ∀ {α : Type} (f : PodMetric → α),
      (∀ (e : Entry) (v w : PodMetric),
        f (applyEntry range nowFmt v e) = f (applyEntry range nowFmt w e) ∨
        (f (applyEntry range nowFmt v e) = f v ∧ f (applyEntry range nowFmt w e) = f w)) →
      f (rel.foldl (applyEntry range nowFmt) (rel.foldl (applyEntry range nowFmt) v)) =
        f (rel.foldl (applyEntry range nowFmt) v) := by
    intro α f H
    rcases foldl_proj_cases f range nowFmt H rel (rel.foldl (applyEntry range nowFmt) v) v with
      h | ⟨h1, h2⟩
    · exact h
    · exact h1
  refine PodMetric.ext ?_ ?_ ?_ ?_ ?_ ?_ ?_ ?_ ?_ ?_ ?_
  · exact key (fun x => x.Metric) (by
      intro e v w; unfold applyEntry dispatch; split_ifs <;> simp)
  · exact key (fun x => x.Range) (by
      intro e v w; unfold applyEntry dispatch; split_ifs <;> simp)
  · exact key (fun x => x.Pod) (by
      intro e v w; unfold applyEntry dispatch; split_ifs <;> simp)
  · exact key (fun x => x.Namespace) (by
      intro e v w; unfold applyEntry dispatch; split_ifs <;> simp)
  · exact key (fun x => x.LabelApp) (by
      intro e v w; unfold applyEntry dispatch; split_ifs <;> simp)
  · exact key (fun x => x.Q95Value) (by
      intro e v w; unfold applyEntry dispatch; split_ifs <;> simp)
  · exact key (fun x => x.MaxValue) (by
      intro e v w; unfold applyEntry dispatch; split_ifs <;> simp)
  · exact key (fun x => x.MinValue) (by
      intro e v w; unfold applyEntry dispatch; split_ifs <;> simp)
  · exact key (fun x => x.AvgValue) (by
      intro e v w; unfold applyEntry dispatch; split_ifs <;> simp)
  · exact key (fun x => x.InstValue) (by
      intro e v w; unfold applyEntry dispatch; split_ifs <;> simp)
  · exact key (fun x => x.QueryTime) (by
      intro e v w; unfold applyEntry dispatch; split_ifs <;> simp)

theorem mem_tableKeys_upsert_self (t : Table) (id : Nat) (v : PodMetric) :
    id ∈ tableKeys (upsert t id v) := by
  rw [tableKeys_upsert]
  by_cases h : id ∈ tableKeys t <;> simp [h]

theorem mem_tableKeys_aggregate_mono (range nowFmt : String) (es : List Entry) :
    ∀ (t : Table) (id : Nat), id ∈ tableKeys t →
    id ∈ tableKeys (aggregate range nowFmt t es) := by
  induction es with
  | nil => intro t id h; exact h
  | cons e rest ih =>
    intro t id h
    refine ih (foldEntry range nowFmt t e) id ?_
    unfold foldEntry
    rw [tableKeys_upsert]
    by_cases hm : entryFp e ∈ tableKeys t <;> simp [hm, h]

theorem fp_mem_tableKeys_aggregate (range nowFmt : String) (es : List Entry) :
    ∀ (t : Table) (e : Entry), e ∈ es → entryFp e ∈ tableKeys (aggregate range nowFmt t es) := by
  induction es with
  | nil => intro t e h; simp at h
  | cons e0 rest ih =>
    intro t e h
    rcases List.mem_cons.mp h with rfl | hmem
    · exact mem_tableKeys_aggregate_mono range nowFmt rest _ _
        (mem_tableKeys_upsert_self t (entryFp e) _)
    · exact ih (foldEntry range nowFmt t e0) e hmem

theorem tableKeys_aggregate_stable (range nowFmt : String) (es : List Entry) :
    ∀ t : Table, (∀ e ∈ es, entryFp e ∈ tableKeys t) →
    tableKeys (aggregate range nowFmt t es) = tableKeys t := by
  induction es with
  | nil => intro t _; rfl
  | cons e rest ih =>
    intro t h
    have hfe : tableKeys (foldEntry range nowFmt t e) = tableKeys t := by
      unfold foldEntry
      rw [tableKeys_upsert, if_pos (h e (by simp))]
    have hrest : ∀ e' ∈ rest, entryFp e' ∈ tableKeys (foldEntry range nowFmt t e) := by
      intro e' he'
      rw [hfe]
      exact h e' (by simp [he'])
    calc tableKeys (aggregate range nowFmt (foldEntry range nowFmt t e) rest)
        = tableKeys (foldEntry range nowFmt t e) := ih _ hrest
      _ = tableKeys t := hfe

theorem table_ext (t1 : Table) :
    ∀ t2 : Table, tableKeys t1 = tableKeys t2 → (tableKeys t1).Nodup →
    (∀ id, t1.lookup id = t2.lookup id) → t1 = t2 := by
  induction t1 with
  | nil =>
    intro t2 hk _ _
    cases t2 with
    | nil => rfl
    | cons kv t2 => simp [tableKeys] at hk
  | cons kv t1 ih =>
    intro t2 hk hnd hl
    obtain ⟨k, v⟩ := kv
    cases t2 with
    | nil => simp [tableKeys] at hk
    | cons kw t2 =>
      obtain ⟨k2, v2⟩ := kw
      have hk0 : k = k2 ∧ tableKeys t1 = tableKeys t2 := by
        simpa [tableKeys] using hk
      obtain ⟨rfl, hk'⟩ := hk0
      have hv : v = v2 := by
        have hkk := hl k
        simpa [List.lookup] using hkk
      subst hv
      have hnd' : k ∉ tableKeys t1 ∧ (tableKeys t1).Nodup := by
        simpa [tableKeys, List.nodup_cons] using hnd
      have hknot2 : k ∉ tableKeys t2 := by
        rw [← hk']
        exact hnd'.1
      congr 1
      refine ih t2 hk' hnd'.2 ?_
      intro id
      by_cases hid : id = k
      · subst hid
        rw [lookup_eq_none_of_not_mem t1 id hnd'.1, lookup_eq_none_of_not_mem t2 id hknot2]
      · have hkk := hl id
        simpa [List.lookup, beq_eq_false_iff_ne.mpr hid] using hkk

/-- C9: the aggregator fold is idempotent — folding the identical
sequence of collated samples a second time, starting from the table the
first fold produced, returns that table unchanged: every field
assignment rewrites the value it wrote the first time. -/
theorem c9_fold_idempotent (range nowFmt : String) (es : List Entry) :
    aggregate range nowFmt (aggregate range nowFmt [] es) es =
      aggregate range nowFmt [] es := by
  have hkeys : tableKeys (aggregate range nowFmt (aggregate range nowFmt [] es) es) =
      tableKeys (aggregate range nowFmt [] es) := by
    apply tableKeys_aggregate_stable
    intro e he
    exact fp_mem_tableKeys_aggregate range nowFmt es [] e he
  have hnd : (tableKeys (aggregate range nowFmt (aggregate range nowFmt [] es) es)).Nodup := by
    rw [hkeys]
    exact nodup_tableKeys_aggregate range nowFmt es [] (by simp [tableKeys])
  refine table_ext _ _ hkeys hnd ?_
  intro id
  by_cases hrel : (es.filter (fun x => entryFp x == id)).isEmpty
  · rw [lookup_aggregate, if_pos hrel]
  · rw [lookup_aggregate, if_neg hrel, lookup_aggregate, if_neg hrel]
    simp only [List.lookup_nil, Option.getD_none, Option.getD_some]
    exact congrArg some (foldl_applyEntry_absorb range nowFmt _ _)

/-! ## C5: the composer's output -/

theorem render_quantile (m r : String) :
    render quantileOverTimeTemplate m r =
      "quantile_over_time(.95, " ++ m ++ "[" ++ r ++ "])" := by
  unfold render
  rw [if_pos rfl]

theorem render_avg (m r : String) :
    render avgOverTimeTemplate m r = "avg_over_time(" ++ m ++ "[" ++ r ++ "])" := by
  unfold render
  rw [if_neg (by decide), if_pos rfl]

theorem render_max (m r : String) :
    render maxOverTimeTemplate m r = "max_over_time(" ++ m ++ "[" ++ r ++ "])" := by
  unfold render
  rw [if_neg (by decide), if_neg (by decide), if_pos rfl]

theorem render_min (m r : String) :
    render minOverTimeTemplate m r = "min_over_time(" ++ m ++ "[" ++ r ++ "])" := by
  unfold render
  rw [if_neg (by decide), if_neg (by decide), if_neg (by decide), if_pos rfl]

theorem render_instant (m r : String) : render instantTemplate m r = m := by
  unfold render
  rw [if_neg (by decide), if_neg (by decide), if_neg (by decide), if_neg (by decide),
    if_pos rfl]

theorem kfree_append (a b : List Char) (ha : ∀ c ∈ a, c ≠ 'k') (hb : ∀ c ∈ b, c ≠ 'k') :
    ∀ c ∈ a ++ b, c ≠ 'k' := by
  intro c hc
  rcases List.mem_append.mp hc with h | h
  · exact ha c h
  · exact hb c h

theorem kfree_str_append (s t : String) (hs : ∀ c ∈ s.data, c ≠ 'k')
    (ht : ∀ c ∈ t.data, c ≠ 'k') : ∀ c ∈ (s ++ t).data, c ≠ 'k' := by
  rw [String.data_append]
  exact kfree_append _ _ hs ht

theorem validRange_kfree (r : String) (h : validRange r = true) :
    ∀ c ∈ r.data, c ≠ 'k' := by
  unfold validRange at h
  rw [Bool.and_eq_true] at h
  obtain ⟨h1, h2⟩ := h
  intro c hc
  rw [← List.takeWhile_append_dropWhile Char.isDigit r.data] at hc
  rcases List.mem_append.mp hc with hd | hu
  · have hdig := List.mem_takeWhile_imp hd
    intro hck
    rw [hck] at hdig
    exact absurd hdig (by decide)
  · have hmem : r.data.dropWhile Char.isDigit ∈ rangeUnits := by simpa using h2
    simp only [rangeUnits, List.mem_cons, List.not_mem_nil, or_false] at hmem
    rcases hmem with he | he | he | he | he | he | he <;>
      rw [he] at hu <;> simp at hu <;>
        rcases hu with rfl | rfl <;> decide

theorem countSub_kfree_skip (k : Char) (rest s t : List Char)
    (hs : ∀ c ∈ s, c ≠ k) :
    countSub (k :: rest) (s ++ t) = countSub (k :: rest) t := by
  induction s with
  | nil => rfl
  | cons c cs ih =>
    have hkc : (k == c) = false :=
      beq_eq_false_iff_ne.mpr (fun hh => (hs c (by simp)) hh.symm)
    have hpf : (k :: rest).isPrefixOf (c :: (cs ++ t)) = false := by
      simp only [List.isPrefixOf, hkc, Bool.false_and]
    rw [List.cons_append]
    simp only [countSub, hpf, Bool.false_eq_true, if_false, Nat.zero_add]
    exact ih (fun c2 hc2 => hs c2 (by simp [hc2]))

theorem countSub_kfree_zero (k : Char) (rest s : List Char) (hs : ∀ c ∈ s, c ≠ k) :
    countSub (k :: rest) s = 0 := by
  have h0 := countSub_kfree_skip k rest s [] hs
  simpa using h0

theorem isPrefixOf_append_self (l t : List Char) : l.isPrefixOf (l ++ t) = true := by
  induction l with
  | nil => simp [List.isPrefixOf]
  | cons c cs ih =>
    simp only [List.cons_append, List.isPrefixOf, beq_self_eq_true, Bool.true_and]
    exact ih

theorem countSub_head_once (k : Char) (rest t : List Char)
    (hrest : ∀ c ∈ rest, c ≠ k) (ht : ∀ c ∈ t, c ≠ k) :
    countSub (k :: rest) (k :: (rest ++ t)) = 1 := by
  have hpf : (k :: rest).isPrefixOf (k :: (rest ++ t)) = true :=
    isPrefixOf_append_self (k :: rest) t
  simp only [countSub, hpf, if_true]
  rw [countSub_kfree_skip k rest rest t hrest, countSub_kfree_zero k rest t ht]

set_option maxRecDepth 8000 in
theorem countSub_wrapper_once (inner : String) (hin : ∀ c ∈ inner.data, c ≠ 'k') :
    countSub (("kube_pod_labels").data) ((renderAppLabel inner).data) = 1 := by
  have hpat : ("kube_pod_labels").data = 'k' :: ("ube_pod_labels").data := by decide
  have hdata : (renderAppLabel inner).data =
      ("sum by (pod, label_app) (").data ++
        ('k' :: (("ube_pod_labels").data ++
          (("\x7bpod!=\"\"\x7d) * on (pod) group_right(label_app) sum by (pod, namespace, node) (").data ++
            (inner.data ++ (")").data)))) := by
    unfold renderAppLabel
    rw [String.data_append, String.data_append,
      show appLabelPre.data = ("sum by (pod, label_app) (").data ++
        (('k' :: ("ube_pod_labels").data) ++
          ("\x7bpod!=\"\"\x7d) * on (pod) group_right(label_app) sum by (pod, namespace, node) (").data)
        from by decide]
    simp [List.append_assoc]
  rw [hdata, hpat]
  rw [countSub_kfree_skip 'k' (("ube_pod_labels").data) (("sum by (pod, label_app) (").data) _
    (by decide)]
  rw [countSub_head_once 'k' (("ube_pod_labels").data) _ (by decide) ?_]
  apply kfree_append
  · decide
  · apply kfree_append
    · exact hin
    · decide

theorem strContains_of_data_split (s pat : String) (a b : List Char)
    (h : s.data = a ++ (pat.data ++ b)) : strContains s pat = true := by
  unfold strContains
  rw [h]
  exact containsSeg_of_middle a pat.data b

theorem composed_quantile_props (tm r : String)
    (htm : ∀ c ∈ tm.data, c ≠ 'k') (hr : ∀ c ∈ r.data, c ≠ 'k') :
    strContains (renderAppLabel (render quantileOverTimeTemplate tm r)) tm = true ∧
    strContains (renderAppLabel (render quantileOverTimeTemplate tm r)) r = true ∧
    countSub (("kube_pod_labels").data)
      (renderAppLabel (render quantileOverTimeTemplate tm r)).data = 1 := by
  rw [render_quantile]
  refine ⟨?_, ?_, ?_⟩
  · apply strContains_of_data_split _ _ ((appLabelPre ++ "quantile_over_time(.95, ").data)
      (("[" ++ r ++ "])" ++ ")").data)
    simp [renderAppLabel, String.data_append, List.append_assoc]
  · apply strContains_of_data_split _ _
      ((appLabelPre ++ "quantile_over_time(.95, " ++ tm ++ "[").data) ((("])") ++ ")").data)
    simp [renderAppLabel, String.data_append, List.append_assoc]
  · exact countSub_wrapper_once _
      (kfree_str_append _ _
        (kfree_str_append _ _ (kfree_str_append _ _ (by decide) htm) (by decide)) hr
        |> fun hh => kfree_str_append _ _ hh (by decide))

theorem composed_avg_props (tm r : String)
    (htm : ∀ c ∈ tm.data, c ≠ 'k') (hr : ∀ c ∈ r.data, c ≠ 'k') :
    strContains (renderAppLabel (render avgOverTimeTemplate tm r)) tm = true ∧
    strContains (renderAppLabel (render avgOverTimeTemplate tm r)) r = true ∧
    countSub (("kube_pod_labels").data)
      (renderAppLabel (render avgOverTimeTemplate tm r)).data = 1 := by
  rw [render_avg]
  refine ⟨?_, ?_, ?_⟩
  · apply strContains_of_data_split _ _ ((appLabelPre ++ "avg_over_time(").data)
      (("[" ++ r ++ "])" ++ ")").data)
    simp [renderAppLabel, String.data_append, List.append_assoc]
  · apply strContains_of_data_split _ _
      ((appLabelPre ++ "avg_over_time(" ++ tm ++ "[").data) ((("])") ++ ")").data)
    simp [renderAppLabel, String.data_append, List.append_assoc]
  · exact countSub_wrapper_once _
      (kfree_str_append _ _
        (kfree_str_append _ _ (kfree_str_append _ _ (by decide) htm) (by decide)) hr
        |> fun hh => kfree_str_append _ _ hh (by decide))

theorem composed_max_props (tm r : String)
    (htm : ∀ c ∈ tm.data, c ≠ 'k') (hr : ∀ c ∈ r.data, c ≠ 'k') :
    strContains (renderAppLabel (render maxOverTimeTemplate tm r)) tm = true ∧
    strContains (renderAppLabel (render maxOverTimeTemplate tm r)) r = true ∧
    countSub (("kube_pod_labels").data)
      (renderAppLabel (render maxOverTimeTemplate tm r)).data = 1 := by
  rw [render_max]
  refine ⟨?_, ?_, ?_⟩
  · apply strContains_of_data_split _ _ ((appLabelPre ++ "max_over_time(").data)
      (("[" ++ r ++ "])" ++ ")").data)
    simp [renderAppLabel, String.data_append, List.append_assoc]
  · apply strContains_of_data_split _ _
      ((appLabelPre ++ "max_over_time(" ++ tm ++ "[").data) ((("])") ++ ")").data)
    simp [renderAppLabel, String.data_append, List.append_assoc]
  · exact countSub_wrapper_once _
      (kfree_str_append _ _
        (kfree_str_append _ _ (kfree_str_append _ _ (by decide) htm) (by decide)) hr
        |> fun hh => kfree_str_append _ _ hh (by decide))

theorem composed_min_props (tm r : String)
    (htm : ∀ c ∈ tm.data, c ≠ 'k') (hr : ∀ c ∈ r.data, c ≠ 'k') :
    strContains (renderAppLabel (render minOverTimeTemplate tm r)) tm = true ∧
    strContains (renderAppLabel (render minOverTimeTemplate tm r)) r = true ∧
    countSub (("kube_pod_labels").data)
      (renderAppLabel (render minOverTimeTemplate tm r)).data = 1 := by
  rw [render_min]
  refine ⟨?_, ?_, ?_⟩
  · apply strContains_of_data_split _ _ ((appLabelPre ++ "min_over_time(").data)
      (("[" ++ r ++ "])" ++ ")").data)
    simp [renderAppLabel, String.data_append, List.append_assoc]
  · apply strContains_of_data_split _ _
      ((appLabelPre ++ "min_over_time(" ++ tm ++ "[").data) ((("])") ++ ")").data)
    simp [renderAppLabel, String.data_append, List.append_assoc]
  · exact countSub_wrapper_once _
      (kfree_str_append _ _
        (kfree_str_append _ _ (kfree_str_append _ _ (by decide) htm) (by decide)) hr
        |> fun hh => kfree_str_append _ _ hh (by decide))

theorem composed_instant_props (tm r : String)
    (htm : ∀ c ∈ tm.data, c ≠ 'k') :
    strContains (renderAppLabel (render instantTemplate tm r)) tm = true ∧
    countSub (("kube_pod_labels").data)
      (renderAppLabel (render instantTemplate tm r)).data = 1 := by
  rw [render_instant]
  refine ⟨?_, ?_⟩
  · apply strContains_of_data_split _ _ (appLabelPre.data) ((")").data)
    simp [renderAppLabel, String.data_append, List.append_assoc]
  · exact countSub_wrapper_once _ htm

theorem mem_metricPairs (ts : List String) (p : String × String) (h : p ∈ metricPairs ts) :
    p.1 ∈ targetMetrics ∧ p.2 ∈ ts := by
  unfold metricPairs at h
  rw [List.mem_flatten] at h
  obtain ⟨l, hl, hpl⟩ := h
  rw [List.mem_map] at hl
  obtain ⟨tm, htm, rfl⟩ := hl
  rw [List.mem_map] at hpl
  obtain ⟨qt, hqt, rfl⟩ := hpl
  exact ⟨htm, hqt⟩

theorem composed_pair_props (tm qt r : String)
    (htm : tm ∈ targetMetrics)
    (hqt : qt ∈ [quantileOverTimeTemplate, avgOverTimeTemplate, maxOverTimeTemplate,
      minOverTimeTemplate, instantTemplate])
    (hr : validRange r = true) :
    strContains (renderAppLabel (render qt tm r)) tm = true ∧
    (qt ≠ instantTemplate → strContains (renderAppLabel (render qt tm r)) r = true) ∧
    countSub (("kube_pod_labels").data) (renderAppLabel (render qt tm r)).data = 1 := by
  have hrk := validRange_kfree r hr
  have htmk : ∀ c ∈ tm.data, c ≠ 'k' := by
    simp only [targetMetrics, List.mem_cons, List.not_mem_nil, or_false] at htm
    rcases htm with rfl | rfl <;> decide
  simp only [List.mem_cons, List.not_mem_nil, or_false] at hqt
  rcases hqt with rfl | rfl | rfl | rfl | rfl
  · obtain ⟨h1, h2, h3⟩ := composed_quantile_props tm r htmk hrk
    exact ⟨h1, fun _ => h2, h3⟩
  · obtain ⟨h1, h2, h3⟩ := composed_avg_props tm r htmk hrk
    exact ⟨h1, fun _ => h2, h3⟩
  · obtain ⟨h1, h2, h3⟩ := composed_max_props tm r htmk hrk
    exact ⟨h1, fun _ => h2, h3⟩
  · obtain ⟨h1, h2, h3⟩ := composed_min_props tm r htmk hrk
    exact ⟨h1, fun _ => h2, h3⟩
  · obtain ⟨h1, h2⟩ := composed_instant_props tm r htmk
    exact ⟨h1, fun hh => absurd rfl hh, h2⟩

theorem templates_sub_five (s : String) (ts : List String)
    (hts : selectQueryTemplates s = Except.ok ts) (qt : String) (hqt : qt ∈ ts) :
    qt ∈ [quantileOverTimeTemplate, avgOverTimeTemplate, maxOverTimeTemplate,
      minOverTimeTemplate, instantTemplate] := by
  unfold selectQueryTemplates at hts
  split_ifs at hts <;> injection hts with h <;> subst h
  · simp only [List.mem_singleton] at hqt
    simp [hqt]
  · simp only [List.mem_singleton] at hqt
    simp [hqt]
  · simp only [List.mem_singleton] at hqt
    simp [hqt]
  · simp only [defaultQueryTemplates, List.mem_cons, List.not_mem_nil, or_false] at hqt
    rcases hqt with rfl | rfl | rfl | rfl <;> simp

theorem metricPairs_length (ts : List String) :
    (metricPairs ts).length = targetMetrics.length * ts.length := by
  unfold metricPairs
  rw [List.length_flatten]
  simp [targetMetrics]
  omega

/-- C5: with K the selected TemplateKinds and N the target metrics, the
composer yields exactly N x K composed query strings; each is the
label-join wrapping of its template rendered at its metric, contains the
metric name, contains the configured range whenever its template is not
the instantaneous one, and contains the label-join wrapper (the
`kube_pod_labels` metadata selector) exactly once. -/
theorem c5_composer_output (s r : String) (hr : validRange r = true) :
    ∃ ts, selectQueryTemplates s = Except.ok ts ∧
      (composedQueries s r).length = targetMetrics.length * ts.length ∧
      ∀ cq ∈ composedQueries s r, ∃ tm qt, tm ∈ targetMetrics ∧ qt ∈ ts ∧
        cq = renderAppLabel (render qt tm r) ∧
        strContains cq tm = true ∧
        (qt ≠ instantTemplate → strContains cq r = true) ∧
        countSub (("kube_pod_labels").data) cq.data = 1 := by
  obtain ⟨ts, hts, -⟩ := select_ok s
  refine ⟨ts, hts, ?_, ?_⟩
  · rw [composedQueries, hts, List.length_map]
    exact metricPairs_length ts
  · intro cq hcq
    rw [composedQueries, hts] at hcq
    obtain ⟨p, hp, rfl⟩ := List.mem_map.mp hcq
    obtain ⟨h1, h2⟩ := mem_metricPairs ts p hp
    obtain ⟨hc1, hc2, hc3⟩ :=
      composed_pair_props p.1 p.2 r h1 (templates_sub_five s ts hts p.2 h2) hr
    exact ⟨p.1, p.2, h1, h2, rfl, hc1, hc2, hc3⟩

/-- C5 witness: the default run over the range `10m` produces 2 x 4
composed queries with the stated containment and single-wrapping
properties. -/
theorem c5_composer_witness :
    ∃ ts, selectQueryTemplates "" = Except.ok ts ∧
      (composedQueries "" ("10m")).length = targetMetrics.length * ts.length ∧
      ∀ cq ∈ composedQueries "" ("10m"), ∃ tm qt, tm ∈ targetMetrics ∧ qt ∈ ts ∧
        cq = renderAppLabel (render qt tm ("10m")) ∧
        strContains cq tm = true ∧
        (qt ≠ instantTemplate → strContains cq ("10m") = true) ∧
        countSub (("kube_pod_labels").data) cq.data = 1 :=
  c5_composer_output ("") ("10m") (by decide)
